import Mathlib

/-!
Verification of the gene_pge repository (fetch-normalize-aggregate pipeline).

Shallow embedding of the core logic of:
  * `src/services/uniprot.py`  (canonical-entry selection, retry policy,
    normalization helpers, text cleaning),
  * `src/services/signor.py`   (TSV parsing and interaction aggregation),
  * `src/services/cache.py`    (primary/fallback cache state machine).

Python `dict`s are modelled as association lists preserving insertion
order (CPython dicts iterate in insertion order); Python `float` values
are modelled as exact rationals; Python's stable `sorted` is modelled by
`List.insertionSort`, which is stable for the key orders used here.
-/

namespace GenePGE

/-! ### UniProt entry selection (`fetch_gene_summary`, uniprot.py lines 57-89) -/

/-- `settings.human_organism_id` (core/config.py). -/
def humanOrganismId : Int := 9606

/-- `SWISS_PROT_TYPE` constant (uniprot.py line 50). -/
def SWISS_PROT_TYPE : String := "UniProtKB reviewed (Swiss-Prot)"

/-- One element of the upstream `results` array, restricted to the fields
`fetch_gene_summary` inspects before normalization.
`organismTaxonId` models `r.get("organism", \x7b\x7d).get("taxonId")` and
`annotationScore` models `r.get("annotationScore", 0)` (absent = `none`). -/
structure Entry where
  organismTaxonId : Option Int
  entryType : String
  annotationScore : Option ℚ
  primaryAccession : String
deriving Repr, DecidableEq

/-- The annotation-score key used by `max(candidates, key=...)`. -/
def Entry.score (e : Entry) : ℚ := e.annotationScore.getD 0

/-- Python's `max(xs, key=f)` on a nonempty list: keeps the current best and
replaces it only when a strictly larger key appears, hence it returns the
first element attaining the maximal key. -/
def pyMaxBy (f : Entry → ℚ) : Entry → List Entry → Entry
  | best, [] => best
  | best, e :: es => pyMaxBy f (if f best < f e then e else best) es

/-- Selection stage of `fetch_gene_summary` (uniprot.py lines 67-89), applied
to the parsed `results` array: human filter, Swiss-Prot filter, then highest
annotation score (first-encountered wins on ties).  Returns the selected
entry (the argument later passed to `_normalize`), or `none` (`NotFound`). -/
def selectCanonical (results : List Entry) : Option Entry :=
  let humanEntries := results.filter (fun r => r.organismTaxonId = some humanOrganismId)
  if humanEntries.isEmpty then none
  else
    let reviewed := humanEntries.filter (fun r => r.entryType = SWISS_PROT_TYPE)
    let candidates := reviewed
    match candidates with
    | [] => none
    | c :: cs => some (pyMaxBy Entry.score c cs)

/-- The human ∧ reviewed candidate list of `fetch_gene_summary`. -/
def candidatesOf (results : List Entry) : List Entry :=
  (results.filter (fun r => r.organismTaxonId = some humanOrganismId)).filter
    (fun r => r.entryType = SWISS_PROT_TYPE)

/-! ### UniProt HTTP retry policy (`_query_uniprot`, uniprot.py lines 101-136) -/

/-- A `requests.Response`, restricted to what the `except HTTPError` branch
reads. -/
structure HttpResponse where
  status_code : Nat
deriving Repr, DecidableEq

/-- Python truthiness of a `requests.Response`: `Response.__bool__` returns
`self.ok`, which is `status_code < 400`. -/
def responseOk (r : HttpResponse) : Bool := r.status_code < 400

/-- Outcome of one `requests.get` + `raise_for_status` attempt.
`httpError resp` models `requests.HTTPError` carrying `exc.response`
(`none` when no response is attached; `raise_for_status` always attaches the
4xx/5xx response it raises on); `transportError` models any other
`requests.RequestException`. -/
inductive AttemptOutcome where
  | success
  | timeout
  | httpError (response : Option HttpResponse)
  | transportError
deriving Repr, DecidableEq

/-- Result of `_query_uniprot`: `ok` (parsed JSON returned), `notFound`
(`None` returned), or `serviceError` (`UniProtServiceError` raised). -/
inductive QueryResult where
  | ok
  | notFound
  | serviceError
deriving Repr, DecidableEq

/-- `status = exc.response.status_code if exc.response else None`
(uniprot.py line 124): `if exc.response` is a truthiness test on the
response, i.e. `responseOk`, not a `None`-check. -/
def httpErrorStatus (resp : Option HttpResponse) : Option Nat :=
  match resp with
  | some r => if responseOk r then some r.status_code else none
  | none => none

/-- The `for attempt in range(1, retries+1)` loop body of `_query_uniprot`:
consume one attempt outcome per iteration; falling off the loop raises
`UniProtServiceError("UniProt service unavailable")`.  In the `HTTPError`
branch, `return None` happens only when `httpErrorStatus` yields 404. -/
def queryLoop : List AttemptOutcome → QueryResult
  | [] => .serviceError
  | .success :: _ => .ok
  | .timeout :: rest => queryLoop rest
  | .transportError :: rest => queryLoop rest
  | .httpError resp :: _ =>
    if httpErrorStatus resp = some 404 then .notFound else .serviceError

/-- `settings.uniprot_retries` (core/config.py): total attempt count. -/
def uniprotRetries : Nat := 2

/-- `_query_uniprot` against a network behaviour giving the outcome of each
attempt (attempt `i` = `outcomes i`, zero-indexed). -/
def queryUniprot (outcomes : Nat → AttemptOutcome) : QueryResult :=
  queryLoop ((List.range uniprotRetries).map outcomes)

/-! ### Cache layer state machine (`CacheService`, cache.py) -/

/-- The runtime operations of `CacheService` that may touch the primary
(Redis) store. -/
inductive CacheOp where
  | get
  | set
  | delete
  | getRaw
  | setRaw
deriving Repr, DecidableEq

/-- One runtime step of a `CacheService` instance.  `connected` is whether
`self._redis` is not `None`; `raises` is whether the primary store raises if
this operation reaches it.  Returns the new connection state and whether the
primary store was attempted.  `get`/`set`/`get_raw`/`set_raw` assign
`self._redis = None` in their `except` branch; `delete`'s `except` branch is
`pass` (cache.py lines 84-85) and leaves `self._redis` untouched. -/
def cacheStep (connected : Bool) (op : CacheOp) (raises : Bool) : Bool × Bool :=
  if connected then
    if raises then
      match op with
      | .delete => (true, true)
      | _ => (false, true)
    else (true, true)
  else (false, false)

/-- Run a sequence of operations from a given connection state, returning the
final state and the trace of "primary store attempted" flags. -/
def cacheRun (connected : Bool) : List (CacheOp × Bool) → Bool × List Bool
  | [] => (connected, [])
  | (op, raises) :: rest =>
    let s := cacheStep connected op raises
    let r := cacheRun s.1 rest
    (r.1, s.2 :: r.2)

/-! ### Generic stable sorting by a key

Python's `sorted`/`list.sort` is a stable sort; a stable sort w.r.t. a total
preorder is uniquely determined, so `List.insertionSort` with the key order
is a faithful model.  `byKeyAsc key` sorts ascending by `key`; descending
sorts use a key into an order dual. -/

def byKeyAsc {α β : Type} [LinearOrder β] (key : α → β) : α → α → Prop :=
  fun a b => key a ≤ key b

instance {α β : Type} [LinearOrder β] (key : α → β) : DecidableRel (byKeyAsc key) :=
  fun a b => inferInstanceAs (Decidable (key a ≤ key b))

instance {α β : Type} [LinearOrder β] (key : α → β) : IsTotal α (byKeyAsc key) :=
  ⟨fun a b => le_total (key a) (key b)⟩

instance {α β : Type} [LinearOrder β] (key : α → β) : IsTrans α (byKeyAsc key) :=
  ⟨fun _ _ _ hab hbc => le_trans hab hbc⟩

/-- Stable sort by key. -/
def sortByKey {α β : Type} [LinearOrder β] (key : α → β) (l : List α) : List α :=
  l.insertionSort (byKeyAsc key)

/-- The maximal annotation score of the candidate list `c :: cs`. -/
def listMaxScore (c : Entry) (cs : List Entry) : ℚ :=
  (cs.map Entry.score).foldl max c.score

/-! ### `_clean_text` (uniprot.py lines 477-489)

The four `re.sub(..., '', text)` calls remove, left to right, every
occurrence of `\s*LIT[^C]+C` for a literal opener `LIT` and closing
character `C`; these patterns are deterministic (the greedy `[^C]+` runs to
the first `C`), so each pass is modelled by a direct scanner.  `\s` is
modelled by `Char.isWhitespace` (space, tab, CR, LF — the characters
relevant to the data). -/

def isWs (c : Char) : Bool := c.isWhitespace

/-- Strip a literal prefix. -/
def stripPfx : List Char → List Char → Option (List Char)
  | [], l => some l
  | _ :: _, [] => none
  | p :: ps, c :: cs => if c = p then stripPfx ps cs else none

/-- Match `lit` followed by one-or-more characters other than `close`
followed by `close`, at the current position; return the remainder. -/
def matchTag (lit : List Char) (close : Char) (l : List Char) : Option (List Char) :=
  match stripPfx lit l with
  | none => none
  | some rest =>
    match rest with
    | [] => none
    | c :: _ =>
      if c = close then none
      else
        match rest.dropWhile (fun x => x != close) with
        | [] => none
        | _ :: rest2 => some rest2

/-- One `re.sub(r'\s*LIT[^C]+C', '', text)` pass: leftmost-first scan; on a
match, the maximal whitespace run immediately before the literal is removed
together with the tag, and scanning resumes after the match.  `acc` is the
output so far, reversed; `fuel` bounds recursion (called with the input
length, which suffices since each step consumes at least one character). -/
def removeTagGo (lit : List Char) (close : Char) :
    Nat → List Char → List Char → List Char
  | 0, acc, rest => acc.reverse ++ rest
  | _ + 1, acc, [] => acc.reverse
  | fuel + 1, acc, c :: cs =>
    match matchTag lit close (c :: cs) with
    | some rest => removeTagGo lit close fuel (acc.dropWhile isWs) rest
    | none => removeTagGo lit close fuel (c :: acc) cs

def removeTag (lit : String) (close : Char) (l : List Char) : List Char :=
  removeTagGo lit.data close l.length [] l

/-- `re.sub(r'\s\s+', ' ', text)`: every maximal whitespace run of length at
least two becomes a single space; a lone whitespace character is kept
unchanged. -/
def collapseWsGo : Nat → List Char → List Char
  | 0, l => l
  | _ + 1, [] => []
  | fuel + 1, c :: cs =>
    if isWs c then
      match cs with
      | c2 :: _ =>
        if isWs c2 then ' ' :: collapseWsGo fuel (cs.dropWhile isWs)
        else c :: collapseWsGo fuel cs
      | [] => [c]
    else c :: collapseWsGo fuel cs

def collapseWs (l : List Char) : List Char :=
  collapseWsGo l.length l

/-- Python `str.strip()`. -/
def trimChars (l : List Char) : List Char :=
  (((l.dropWhile isWs).reverse).dropWhile isWs).reverse

/-- Python `str.strip()` on strings (kernel-computable). -/
def strTrim (s : String) : String :=
  String.mk (trimChars s.data)

/-- `s.lower()` (kernel-computable; ASCII, as in this program's data). -/
def strToLower (s : String) : String :=
  String.mk (s.data.map Char.toLower)

/-- Split at non-overlapping leftmost occurrences of the (non-empty)
separator, Python `str.split(sep)` semantics; `fuel` bounds recursion
(called with the input length plus one). -/
def splitOnListGo (sep : List Char) : Nat → List Char → List Char → List (List Char)
  | 0, cur, rest => [cur.reverse ++ rest]
  | _ + 1, cur, [] => [cur.reverse]
  | fuel + 1, cur, c :: cs =>
    match stripPfx sep (c :: cs) with
    | some rest2 => cur.reverse :: splitOnListGo sep fuel [] rest2
    | none => splitOnListGo sep fuel (c :: cur) cs

/-- Python `s.split(sep)` for a non-empty separator (kernel-computable). -/
def strSplitOn (s sep : String) : List String :=
  if sep = "" then [s]
  else (splitOnListGo sep.data (s.data.length + 1) [] s.data).map String.mk

/-- `_clean_text`: the four tag-removal substitutions, whitespace collapse,
and strip.  (The `if not text: return ""` early exit is subsumed: the
pipeline maps `""` to `""`.) -/
def cleanText (s : String) : String :=
  let l1 := removeTag "(PubMed:" ')' s.data
  let l2 := removeTag "\x7bECO:" '\x7d' l1
  let l3 := removeTag "[PubMed:" ']' l2
  let l4 := removeTag "(ECO:" ')' l3
  String.mk (trimChars (collapseWs l4))

/-! ### Reference map and evidence resolution
(`_build_reference_map`, `_map_evidences`, uniprot.py lines 171-227)

Python dicts are modelled as insertion-ordered association lists with
in-place value replacement on key collision. -/

def lookupAssoc {K V : Type} [DecidableEq K] (k : K) : List (K × V) → Option V
  | [] => none
  | (k2, v) :: rest => if k2 = k then some v else lookupAssoc k rest

def dictInsert {K V : Type} [DecidableEq K] (k : K) (v : V) :
    List (K × V) → List (K × V)
  | [] => [(k, v)]
  | (k2, v2) :: rest =>
    if k2 = k then (k2, v) :: rest else (k2, v2) :: dictInsert k v rest

/-- A citation record (the `info` dicts of `_build_reference_map`). -/
structure RefInfo where
  pubmed_id : String
  title : String
  url : String
deriving Repr, DecidableEq

/-- The two lookup tables built by `_build_reference_map`. -/
structure RefMap where
  byNum : List (Int × RefInfo)
  byId : List (String × RefInfo)
deriving Repr, DecidableEq

/-- One element of the entry's `references` array, restricted to the fields
`_build_reference_map` reads.  A citation cross-reference is a
`(database, id)` pair, `id` already defaulted to `""` (`x.get("id", "")`). -/
structure RefEntry where
  referenceNumber : Option Int
  citationTitle : Option String
  citationCrossReferences : List (String × String)
deriving Repr, DecidableEq

/-- The `for x in citation.get("citationCrossReferences", [])` loop: the id of
the first cross-reference whose database is `"PubMed"`, else `""`. -/
def pubIdOf (xs : List (String × String)) : String :=
  match xs.find? (fun x => x.1 == "PubMed") with
  | some x => x.2
  | none => ""

def pubmedUrl (pid : String) : String :=
  "https://pubmed.ncbi.nlm.nih.gov/" ++ pid ++ "/"

/-- `_build_reference_map` (uniprot.py lines 171-193).  `if cid:` is Python
integer truthiness, so a reference number of `0` is not registered. -/
def buildReferenceMap (refs : List RefEntry) : RefMap :=
  refs.foldl
    (fun rm ref =>
      let pubId := pubIdOf ref.citationCrossReferences
      let info : RefInfo :=
        ⟨pubId, ref.citationTitle.getD "No title available",
          if pubId = "" then "" else pubmedUrl pubId⟩
      let rm1 := match ref.referenceNumber with
        | some n => if n = 0 then rm else { rm with byNum := dictInsert n info rm.byNum }
        | none => rm
      if pubId = "" then rm1 else { rm1 with byId := dictInsert pubId info rm1.byId })
    ⟨[], []⟩

/-- An evidence tag, as branched on by `_map_evidences`: `source` either a
dict (carrying an optional `referenceNumber`), or the bare string `"PubMed"`
(with the evidence's optional `id`), or anything else. -/
inductive Evidence where
  | structured (refNum : Option Int)
  | pubmedStr (id : Option String)
  | otherEv
deriving Repr, DecidableEq

/-- The fabricated placeholder citation of `_map_evidences`. -/
def placeholderRef (pid : String) : RefInfo :=
  ⟨pid, "PubMed Record " ++ pid, pubmedUrl pid⟩

/-- The `ref` computed for one evidence tag by `_map_evidences` (uniprot.py
lines 207-222).  In the `"PubMed"`-string case, a missing or empty id gives
no fabricated record (`if not ref and pub_id:`, Python string truthiness). -/
def resolveRef (rm : RefMap) : Evidence → Option RefInfo
  | .structured n => n.bind (fun k => lookupAssoc k rm.byNum)
  | .pubmedStr id =>
    match id.bind (fun k => lookupAssoc k rm.byId) with
    | some r => some r
    | none =>
      match id with
      | some pid => if pid = "" then none else some (placeholderRef pid)
      | none => none
  | .otherEv => none

/-- The accumulation loop of `_map_evidences`: append the resolved citation
when it has a non-empty id not yet seen. -/
def mapEvidencesGo (rm : RefMap) :
    List String → List RefInfo → List Evidence → List RefInfo
  | _, acc, [] => acc
  | seen, acc, ev :: rest =>
    match resolveRef rm ev with
    | some r =>
      if r.pubmed_id ≠ "" ∧ r.pubmed_id ∉ seen then
        mapEvidencesGo rm (seen ++ [r.pubmed_id]) (acc ++ [r]) rest
      else mapEvidencesGo rm seen acc rest
    | none => mapEvidencesGo rm seen acc rest

/-- `_map_evidences` (uniprot.py lines 196-227). -/
def mapEvidences (evs : List Evidence) (rm : RefMap) : List RefInfo :=
  mapEvidencesGo rm [] [] evs

/-- `rm` resolves every evidence whose citation carries the id `pid` to the
fabricated placeholder (true when `pid` is absent from `by_id`). -/
def OnlyPlaceholder (rm : RefMap) (pid : String) : Prop :=
  ∀ ev r, resolveRef rm ev = some r → r.pubmed_id = pid → r = placeholderRef pid

/-- The two structural invariants of `_build_reference_map`: every `by_num`
citation with a non-empty id is also registered in `by_id`, and every `by_id`
citation is stored under its own id. -/
def BRInv (rm : RefMap) : Prop :=
  (∀ n r, lookupAssoc n rm.byNum = some r → r.pubmed_id ≠ "" →
    (lookupAssoc r.pubmed_id rm.byId).isSome) ∧
  (∀ k r, lookupAssoc k rm.byId = some r → r.pubmed_id = k)

/-! ### `_extract_ptm` and `_extract_variants` (uniprot.py lines 341-393) -/

/-- A comment object, restricted to `commentType` and the `value` strings of
its `texts` array. -/
structure CommentC where
  commentType : String
  texts : List String
deriving Repr, DecidableEq

/-- A feature object, restricted to the fields `_extract_ptm` and
`_extract_variants` read.  `locStart` is
`f.get("location", \x7b\x7d).get("start", \x7b\x7d).get("value", 0)`;
`altOriginal` / `altAlternatives` model the `alternativeSequence` block
(`altAlternatives = none` models an absent `alternativeSequences` key, for
which the code defaults to `[""]`). -/
structure Feature where
  ftype : String
  description : String
  locStart : Int
  evidences : List Evidence
  altOriginal : String
  altAlternatives : Option (List String)
deriving Repr, DecidableEq

/-- The PTM description loop of `_extract_ptm` (lines 343-346): the first
comment of type `"PTM"` wins (the loop `break`s), its non-empty text values
are cleaned and space-joined. -/
def ptmDescription (comments : List CommentC) : String :=
  match comments.find? (fun c => c.commentType == "PTM") with
  | some c => " ".intercalate ((c.texts.filter (fun t => t ≠ "")).map cleanText)
  | none => ""

/-- The description the spec sentence asserts: the cleaned texts of ALL PTM
comments, space-joined.  (Comparison definition, written from the spec's
words, not from the code.) -/
def specPtmDescriptionAllComments (comments : List CommentC) : String :=
  " ".intercalate
    (((comments.filter (fun c => c.commentType == "PTM")).map
      (fun c => " ".intercalate
        ((c.texts.filter (fun t => t ≠ "")).map cleanText))))

structure PtmSite where
  position : Int
  residue : String
  stype : String
  references : List RefInfo
deriving Repr, DecidableEq

/-- One site per `"Modified residue"` feature (lines 349-356): position from
the location start, residue the text before the first `;` of the
description. -/
def mkPtmSite (rm : RefMap) (f : Feature) : PtmSite :=
  ⟨f.locStart, (strSplitOn f.description ";").headD "", f.description,
    mapEvidences f.evidences rm⟩

/-- The `sites` list of `_extract_ptm`, sorted by position (stable
`sorted(..., key=lambda x: x["position"])`). -/
def extractPtmSites (rm : RefMap) (features : List Feature) : List PtmSite :=
  sortByKey (fun s => s.position)
    ((features.filter (fun f => f.ftype == "Modified residue")).map (mkPtmSite rm))

structure Variant where
  position : Int
  vfrom : String
  vto : String
  description : String
  disease : String
  clinicalSignificance : String
  references : List RefInfo
deriving Repr, DecidableEq

/-- Python `sub in s`. -/
def containsSub (s sub : String) : Bool := (strSplitOn s sub).length > 1

/-- `desc.split("(in")[0].strip() if "(in" in desc else ""`. -/
def diseaseOf (desc : String) : String :=
  if containsSub desc "(in" then strTrim ((strSplitOn desc "(in").headD "") else ""

/-- `"Disease" if "pathogenic" in desc.lower() or "disease" in desc.lower()
else "Unknown"`. -/
def clinSigOf (desc : String) : String :=
  if containsSub (strToLower desc) "pathogenic" ∨ containsSub (strToLower desc) "disease"
  then "Disease" else "Unknown"

/-- One variant per `"Natural variant"` feature (lines 367-391).  The
`clinvar_id`/`dbsnp_id` fields are constant `""` in the code and omitted
here.  (On an `alternativeSequences` key present with an empty list the code
raises `IndexError`; `headD ""` is used here, which differs only on that
input.) -/
def mkVariant (rm : RefMap) (f : Feature) : Variant :=
  ⟨f.locStart, f.altOriginal, (f.altAlternatives.getD [""]).headD "",
    f.description, diseaseOf f.description, clinSigOf f.description,
    mapEvidences f.evidences rm⟩

/-- `_extract_variants`: filter, map, stable sort by position. -/
def extractVariants (rm : RefMap) (features : List Feature) : List Variant :=
  sortByKey (fun v => v.position)
    ((features.filter (fun f => f.ftype == "Natural variant")).map (mkVariant rm))

/-! ### Decimal parsing and `_extract_structure` (uniprot.py lines 396-442) -/

def digitsToNat (l : List Char) : Nat :=
  l.foldl (fun n c => 10 * n + (c.toNat - 48)) 0

/-- The decimal core of Python `float()`: optional sign, digits with an
optional fractional part (`"2"`, `"2.5"`, `"+.5"`, `"3."`).  Exponents,
`inf`/`nan` and underscores are not modelled (this program's resolution and
score strings are plain decimals); anything else is `none`
(Python `ValueError`). -/
def parseDecimal (s : String) : Option ℚ :=
  let signAndRest : Int × List Char :=
    match s.data with
    | '-' :: rest => (-1, rest)
    | '+' :: rest => (1, rest)
    | cs => (1, cs)
  let sgn := signAndRest.1
  let cs2 := signAndRest.2
  let intPart := cs2.takeWhile Char.isDigit
  match cs2.drop intPart.length with
  | [] =>
    if intPart.isEmpty then none
    else some (mkRat (sgn * (digitsToNat intPart : Int)) 1)
  | '.' :: frac =>
    let fracD := frac.takeWhile Char.isDigit
    if (frac.drop fracD.length).isEmpty then
      if intPart.isEmpty && fracD.isEmpty then none
      else some (mkRat
        (sgn * ((digitsToNat intPart * 10 ^ fracD.length + digitsToNat fracD : Nat) : Int))
        (10 ^ fracD.length))
    else none
  | _ => none

/-- A `uniProtKBCrossReferences` element, restricted to the fields read by
the extraction functions; `properties` are `(key, value)` pairs. -/
structure Xref where
  database : String
  id : String
  properties : List (String × String)
deriving Repr, DecidableEq

/-- The `for p in xref.get("properties", [])` loop (lines 408-412): last
`Method` / `Resolution` property wins, defaults `""`. -/
def methodResOf (props : List (String × String)) : String × String :=
  props.foldl
    (fun mr p =>
      if p.1 = "Method" then (p.2, mr.2)
      else if p.1 = "Resolution" then (mr.1, p.2) else mr)
    ("", "")

/-- `_resolution_sort_val` (lines 417-423): `float('inf')` (`⊤`) unless the
resolution string is non-empty, not `"N/A"`, and its leading
space-delimited token parses as a float. -/
def resSortVal (resStr : String) : WithTop ℚ :=
  if resStr ≠ "" ∧ resStr ≠ "N/A" then
    match parseDecimal ((strSplitOn resStr " ").headD "") with
    | some q => (q : WithTop ℚ)
    | none => ⊤
  else ⊤

structure PdbStructure where
  pdb_id : String
  method : String
  resolution : String
  link : String
deriving Repr, DecidableEq

/-- The PDB entries with their internal `_resolution_sort_val` keys
(lines 404-431): one per cross-reference with database `"PDB"`, method
defaulted to `"X-ray"` and resolution to `"N/A"` when empty. -/
def pdbPairs (xrefs : List Xref) : List (WithTop ℚ × PdbStructure) :=
  (xrefs.filter (fun x => x.database == "PDB")).map
    (fun x =>
      let mr := methodResOf x.properties
      (resSortVal mr.2,
        ⟨x.id, if mr.1 = "" then "X-ray" else mr.1,
          if mr.2 = "" then "N/A" else mr.2,
          "https://www.rcsb.org/structure/" ++ x.id⟩))

/-- The `pdb_structures` list of `_extract_structure`: stable sort by the
internal resolution key (lines 433-437), key removed. -/
def extractStructure (xrefs : List Xref) : List PdbStructure :=
  (sortByKey (fun p => p.1) (pdbPairs xrefs)).map (fun p => p.2)

/-! ### SIGNOR TSV parsing and aggregation (signor.py) -/

/-- `len(TSV_COLUMNS)` (signor.py lines 21-30). -/
def TSV_COLUMNS_LENGTH : Nat := 28

/-- The per-line step of `_fetch_tsv` (signor.py lines 67-74): split the line
on tabs; fewer than 22 tokens → the line is discarded; otherwise the token
list is right-padded with `""` up to 28 columns (and `dict(zip(...))` keeps
only the first 28 tokens of a longer line). -/
def parseLine (line : String) : Option (List String) :=
  let parts := strSplitOn line "\t"
  if parts.length < 22 then none
  else some ((parts ++ List.replicate (TSV_COLUMNS_LENGTH - parts.length) "").take
    TSV_COLUMNS_LENGTH)

/-- `_fetch_tsv` on a response body: strip, empty → no rows, else parse each
newline-separated line. -/
def fetchTsvRows (body : String) : List (List String) :=
  let text := strTrim body
  if text = "" then []
  else (strSplitOn text "\n").filterMap parseLine

/-- A parsed feed row, restricted to the columns the aggregation reads
(`database_a/b`, `tax_id`, cell/tissue, complex and modification columns are
carried in the dict but never read). -/
structure Row where
  entity_a : String
  type_a : String
  id_a : String
  entity_b : String
  type_b : String
  id_b : String
  effect : String
  mechanism : String
  residue : String
  sequence : String
  pmid : String
  sentence : String
  signor_id : String
  score : String
deriving Repr, DecidableEq

/-- `dict(zip(TSV_COLUMNS, parts))` restricted to the read columns
(positions in `TSV_COLUMNS`). -/
def rowOfCols (c : List String) : Row :=
  ⟨c.getD 0 "", c.getD 1 "", c.getD 2 "", c.getD 4 "", c.getD 5 "", c.getD 6 "",
    c.getD 8 "", c.getD 9 "", c.getD 10 "", c.getD 11 "", c.getD 21 "",
    c.getD 25 "", c.getD 26 "", c.getD 27 ""⟩

/-- `_safe_float` (signor.py lines 190-194): `float(val.strip())`, `0.0` on
failure. -/
def safeFloat (val : String) : ℚ := (parseDecimal (strTrim val)).getD 0

/-- The grouping key of `_build_interactions` (line 109). -/
def keyOf (r : Row) : String × String × String × String :=
  (r.entity_a, r.entity_b, r.effect, r.mechanism)

/-- The per-group accumulator dict of `_build_interactions`.  `pmids` models
the Python `set` as its insertion-ordered list of distinct elements
(only membership and the final `sorted(...)` are observable). -/
structure Group where
  entity_a : String
  type_a : String
  id_a : String
  entity_b : String
  type_b : String
  id_b : String
  effect : String
  mechanism : String
  score : ℚ
  pmids : List String
  sentences : List String
  signor_id : String
deriving Repr, DecidableEq

/-- The group created on first encounter of a key (lines 112-126). -/
def initGroup (r : Row) : Group :=
  ⟨r.entity_a, r.type_a, r.id_a, r.entity_b, r.type_b, r.id_b, r.effect,
    r.mechanism, safeFloat r.score, [], [], r.signor_id⟩

/-- Lines 130-135: a non-empty, not-yet-seen pmid is added; only then is its
non-empty sentence collected. -/
def addPmid (r : Row) (g : Group) : Group :=
  let pmid := strTrim r.pmid
  if pmid ≠ "" ∧ pmid ∉ g.pmids then
    let g2 := { g with pmids := g.pmids ++ [pmid] }
    let stc := strTrim r.sentence
    if stc ≠ "" then { g2 with sentences := g2.sentences ++ [stc] } else g2
  else g

/-- Processing one row against an existing group (lines 127-135): only the
score is updated (`max`), then the pmid/sentence accumulation runs. -/
def updGroup (r : Row) (g : Group) : Group :=
  addPmid r { g with score := max g.score (safeFloat r.score) }

/-- Update-or-insert into an insertion-ordered dict. -/
def updateAssoc {K V : Type} [DecidableEq K] (k : K) (f : V → V) (dflt : V) :
    List (K × V) → List (K × V)
  | [] => [(k, dflt)]
  | (k2, v) :: rest =>
    if k2 = k then (k2, f v) :: rest else (k2, v) :: updateAssoc k f dflt rest

/-- One iteration of the `for row in rows` loop of `_build_interactions`. -/
def stepRow (groups : List ((String × String × String × String) × Group))
    (r : Row) : List ((String × String × String × String) × Group) :=
  updateAssoc (keyOf r) (updGroup r) (addPmid r (initGroup r)) groups

/-- The `groups` dict after the loop, in insertion order. -/
def buildGroups (rows : List Row) :
    List ((String × String × String × String) × Group) :=
  rows.foldl stepRow []

/-- Python `round(x, 3)` on the exact rational value: round half to even of
`q * 1000`, computed on the numerator and denominator (for `q = n/d` with
`d > 0`: floor `f = ⌊1000n/d⌋` via Int.fdiv, remainder `rem = 1000n - f*d`,
and `1000q - f` compares to `1/2` as `2*rem` compares to `d`). -/
def roundHalfEven1000 (q : ℚ) : Int :=
  let n := q.num * 1000
  let d := (q.den : Int)
  let f := n.fdiv d
  let rem := n - f * d
  if 2 * rem < d then f
  else if d < 2 * rem then f + 1
  else if f % 2 = 0 then f else f + 1

def round3 (q : ℚ) : ℚ := mkRat (roundHalfEven1000 q) 1000

structure Interaction where
  entity_a : String
  type_a : String
  id_a : String
  entity_b : String
  type_b : String
  id_b : String
  effect : String
  mechanism : String
  score : ℚ
  pmids : List String
  sentences : List String
  signor_id : String
deriving Repr, DecidableEq

/-- Emission of one group (lines 137-152): score rounded to three decimals,
pmids sorted lexicographically, sentences capped at three. -/
def emitGroup (g : Group) : Interaction :=
  ⟨g.entity_a, g.type_a, g.id_a, g.entity_b, g.type_b, g.id_b, g.effect,
    g.mechanism, round3 g.score, sortByKey (fun p : String => p.data) g.pmids,
    g.sentences.take 3, g.signor_id⟩

/-- `_build_interactions` (signor.py lines 101-155): aggregate, emit, then
`result.sort(key=lambda x: x["score"], reverse=True)` — a stable descending
sort, modelled as the stable ascending sort by negated score. -/
def buildInteractions (rows : List Row) : List Interaction :=
  sortByKey (fun i => -i.score) ((buildGroups rows).map (fun p => emitGroup p.2))

/-- `_resolve_entity_name` (signor.py lines 92-98). -/
def resolveEntityName (rows : List Row) (acc : String) : String :=
  match rows.find? (fun r => r.id_a == acc || r.id_b == acc) with
  | some r => if r.id_a == acc then r.entity_a else r.entity_b
  | none => acc

/-- `_structure_response` (signor.py lines 78-89), restricted to the fields
the claims concern (`modifications` omitted). -/
structure SignorResponse where
  entity_name : String
  total_relations : Nat
  interactions : List Interaction
deriving Repr, DecidableEq

def structureResponse (rows : List Row) (acc : String) : SignorResponse :=
  ⟨resolveEntityName rows acc, rows.length, buildInteractions rows⟩

/-- The rows contributing to key `k`, in input order. -/
def groupRows (k : String × String × String × String) (rows : List Row) :
    List Row :=
  rows.filter (fun r => keyOf r = k)

/-- Per-key reference aggregation: the first row of the key initializes the
group, each later row folds through `updGroup`. -/
def aggregateRows : List Row → Option Group
  | [] => none
  | r :: rs => some (rs.foldl (fun g row => updGroup row g) (addPmid r (initGroup r)))

/-- The descriptive fields fixed at group creation. -/
def descOf (g : Group) :
    String × String × String × String × String × String × String × String × String :=
  (g.entity_a, g.type_a, g.id_a, g.entity_b, g.type_b, g.id_b, g.effect,
    g.mechanism, g.signor_id)

/-- The citation accumulation of the loop, as a pure fold over
`(pmids, sentences)` pairs. -/
def collectCit (ps : List String × List String) (r : Row) :
    List String × List String :=
  let pmid := strTrim r.pmid
  if pmid ≠ "" ∧ pmid ∉ ps.1 then
    let stc := strTrim r.sentence
    if stc ≠ "" then (ps.1 ++ [pmid], ps.2 ++ [stc]) else (ps.1 ++ [pmid], ps.2)
  else ps

/-- First witness row: TP53 down-regulates MDM2, score 0.8. -/
def rW1 : Row :=
  ⟨"TP53", "protein", "P04637", "MDM2", "protein", "Q00987", "down-regulates",
    "ubiquitination", "", "", "11234", "sent one", "SIG1", "0.8"⟩

/-- Second witness row: same key, score 0.95, distinct pmid. -/
def rW2 : Row :=
  ⟨"TP53", "protein", "P04637", "MDM2", "protein", "Q00987", "down-regulates",
    "ubiquitination", "", "", "11235", "sent two", "SIG2", "0.95"⟩

/-- The aggregated group of the two witness rows. -/
def gW : Group :=
  ⟨"TP53", "protein", "P04637", "MDM2", "protein", "Q00987", "down-regulates",
    "ubiquitination", mkRat 19 20, ["11234", "11235"],
    ["sent one", "sent two"], "SIG1"⟩

/-- A well-formed 22-token feed line. -/
def lineW : String :=
  "e1\tt1\ti1\td1\te2\tt2\ti2\td2\teff\tmech\tres\tseq\t9606\tcd\ttd\tmc\ttc\tma\tms\tmb\tmbs\t77"

/-! ### Theorems -/

theorem sortByKey_sorted {α β : Type} [LinearOrder β] (key : α → β) (l : List α) :
    (sortByKey key l).Sorted (byKeyAsc key) :=
  List.sorted_insertionSort _ l

theorem sortByKey_perm {α β : Type} [LinearOrder β] (key : α → β) (l : List α) :
    (sortByKey key l).Perm l :=
  List.perm_insertionSort _ l

theorem filter_orderedInsert_byKey {α β : Type} [LinearOrder β] (key : α → β)
    (q : β) (a : α) (m : List α) :
    (m.orderedInsert (byKeyAsc key) a).filter (fun x => key x = q) =
      if key a = q then a :: m.filter (fun x => key x = q)
      else m.filter (fun x => key x = q) := by
  rw [List.orderedInsert_eq_take_drop, List.filter_append, List.filter_cons]
  have hsplit : m.filter (fun x => decide (key x = q)) =
      ((m.takeWhile fun b => decide ¬ byKeyAsc key a b).filter
        (fun x => decide (key x = q))) ++
      ((m.dropWhile fun b => decide ¬ byKeyAsc key a b).filter
        (fun x => decide (key x = q))) := by
    conv_lhs => rw [← List.takeWhile_append_dropWhile
      (p := fun b => decide (¬ byKeyAsc key a b)) (l := m)]
    rw [List.filter_append]
  by_cases ha : key a = q
  · have htake : (m.takeWhile fun b => decide ¬ byKeyAsc key a b).filter
        (fun x => decide (key x = q)) = [] := by
      rw [List.filter_eq_nil_iff]
      intro x hx
      have hrel := List.mem_takeWhile_imp hx
      simp only [decide_eq_true_eq, byKeyAsc] at hrel
      simp only [decide_eq_true_eq]
      intro hxq
      exact hrel (le_of_eq (by rw [hxq, ha]))
    rw [htake, List.nil_append, hsplit, htake, List.nil_append]
    simp [ha]
  · rw [hsplit]
    simp [ha]

theorem filter_sortByKey {α β : Type} [LinearOrder β] (key : α → β)
    (q : β) (l : List α) :
    (sortByKey key l).filter (fun x => key x = q) = l.filter (fun x => key x = q) := by
  induction l with
  | nil => rfl
  | cons a l ih =>
    rw [sortByKey, List.insertionSort, filter_orderedInsert_byKey, List.filter_cons]
    rw [sortByKey] at ih
    by_cases ha : key a = q
    · simp [ha, ih]
    · simp [ha, ih]

/-! Small facts about `List.foldl max` ("running maximum"), used to state that
aggregated scores are maxima. -/

theorem foldl_max_le_iff {l : List ℚ} {a b : ℚ} :
    l.foldl max a ≤ b ↔ a ≤ b ∧ ∀ x ∈ l, x ≤ b := by
  induction l generalizing a with
  | nil => simp
  | cons c l ih =>
    simp only [List.foldl_cons, ih, max_le_iff, List.mem_cons]
    constructor
    · rintro ⟨⟨hab, hcb⟩, hl⟩
      exact ⟨hab, fun x hx => hx.elim (fun h => h ▸ hcb) (hl x)⟩
    · rintro ⟨hab, hl⟩
      exact ⟨⟨hab, hl c (Or.inl rfl)⟩, fun x hx => hl x (Or.inr hx)⟩

theorem foldl_max_mem (l : List ℚ) (a : ℚ) :
    l.foldl max a = a ∨ l.foldl max a ∈ l := by
  induction l generalizing a with
  | nil => exact Or.inl rfl
  | cons c l ih =>
    simp only [List.foldl_cons]
    rcases ih (max a c) with h | h
    · rcases max_choice a c with h2 | h2
      · rw [h, h2]
        exact Or.inl rfl
      · rw [h, h2]
        exact Or.inr (List.mem_cons_self _ _)
    · exact Or.inr (List.mem_cons_of_mem _ h)

theorem le_foldl_max (l : List ℚ) (a : ℚ) :
    a ≤ l.foldl max a ∧ ∀ x ∈ l, x ≤ l.foldl max a :=
  foldl_max_le_iff.mp le_rfl

/-! ### Lemmas about `pyMaxBy` and the selection stage -/

theorem pyMaxBy_mem (f : Entry → ℚ) :
    ∀ (l : List Entry) (best : Entry), pyMaxBy f best l = best ∨ pyMaxBy f best l ∈ l := by
  intro l
  induction l with
  | nil => intro best; exact Or.inl rfl
  | cons e es ih =>
    intro best
    rw [pyMaxBy]
    by_cases h : f best < f e
    · rw [if_pos h]
      rcases ih e with h2 | h2
      · exact Or.inr (by rw [h2]; exact List.mem_cons_self _ _)
      · exact Or.inr (List.mem_cons_of_mem _ h2)
    · rw [if_neg h]
      rcases ih best with h2 | h2
      · exact Or.inl h2
      · exact Or.inr (List.mem_cons_of_mem _ h2)

theorem pyMaxBy_eq_find (f : Entry → ℚ) :
    ∀ (l : List Entry) (best : Entry),
      (best :: l).find? (fun e => f e = (l.map f).foldl max (f best)) =
        some (pyMaxBy f best l) := by
  intro l
  induction l with
  | nil =>
    intro best
    rw [pyMaxBy, List.map_nil, List.foldl_nil]
    exact List.find?_cons_of_pos _ (by simp)
  | cons e es ih =>
    intro best
    rw [pyMaxBy, List.map_cons, List.foldl_cons]
    by_cases hbe : f best < f e
    · rw [if_pos hbe]
      have hmax : max (f best) (f e) = f e := max_eq_right (le_of_lt hbe)
      rw [hmax]
      have hbM : f best < (es.map f).foldl max (f e) :=
        lt_of_lt_of_le hbe (le_foldl_max (es.map f) (f e)).1
      rw [List.find?_cons_of_neg _
        (by simp only [decide_eq_true_eq]; exact ne_of_lt hbM), ih e]
    · rw [if_neg hbe]
      have hfe : f e ≤ f best := le_of_not_lt hbe
      have hmax : max (f best) (f e) = f best := max_eq_left hfe
      rw [hmax]
      have hIH := ih best
      by_cases hb : f best = (es.map f).foldl max (f best)
      · rw [List.find?_cons_of_pos _ (by simp only [decide_eq_true_eq]; exact hb)]
        rw [List.find?_cons_of_pos _ (by simp only [decide_eq_true_eq]; exact hb)] at hIH
        exact hIH
      · have hbM : f best ≤ (es.map f).foldl max (f best) :=
          (le_foldl_max (es.map f) (f best)).1
        have heM : ¬ f e = (es.map f).foldl max (f best) := by
          intro heq
          exact hb (le_antisymm hbM (heq ▸ hfe))
        rw [List.find?_cons_of_neg _ (by simp only [decide_eq_true_eq]; exact hb)]
        rw [List.find?_cons_of_neg _ (by simp only [decide_eq_true_eq]; exact heM)]
        rw [List.find?_cons_of_neg _ (by simp only [decide_eq_true_eq]; exact hb)] at hIH
        exact hIH

theorem selectCanonical_eq_candidates :
    ∀ results : List Entry, selectCanonical results =
      match candidatesOf results with
      | [] => none
      | c :: cs => some (pyMaxBy Entry.score c cs) := by
  intro results
  rw [selectCanonical, candidatesOf]
  by_cases hh : (results.filter
      (fun r => r.organismTaxonId = some humanOrganismId)).isEmpty
  · rw [if_pos hh]
    rw [List.isEmpty_iff] at hh
    rw [hh]
    simp
  · rw [if_neg hh]

/-- C1: `fetch_gene_summary` considers only human-organism entries and among
those only reviewed Swiss-Prot entries; if the human subset is empty or
contains no reviewed entry the result is `None`, and a human but non-reviewed
entry is never returned. -/
theorem fetch_gene_summary_selection_policy (results : List Entry) :
    (selectCanonical results = none ↔ candidatesOf results = []) ∧
    (∀ e, selectCanonical results = some e →
      e.organismTaxonId = some humanOrganismId ∧ e.entryType = SWISS_PROT_TYPE) := by
  have hsel := selectCanonical_eq_candidates results
  constructor
  · rw [hsel]
    cases hc : candidatesOf results with
    | nil => simp
    | cons c cs => simp
  · intro e he
    rw [hsel] at he
    cases hc : candidatesOf results with
    | nil => rw [hc] at he; exact absurd he (by simp)
    | cons c cs =>
      rw [hc] at he
      simp only [Option.some.injEq] at he
      have hmem : e ∈ c :: cs := by
        rcases pyMaxBy_mem Entry.score cs c with h | h
        · rw [← he, h]; exact List.mem_cons_self _ _
        · rw [← he]; exact List.mem_cons_of_mem _ h
      rw [← hc, candidatesOf] at hmem
      have h2 := List.mem_filter.mp hmem
      have h1 := List.mem_filter.mp h2.1
      exact ⟨by simpa using h1.2, by simpa using h2.2⟩

/-- C1 witness: a result set with one human non-reviewed entry and one
non-human reviewed entry yields `None`. -/
theorem fetch_gene_summary_selection_policy_witness :
    (selectCanonical
        [⟨some 9606, "UniProtKB unreviewed (TrEMBL)", some 5, "A1"⟩,
         ⟨some 10090, SWISS_PROT_TYPE, some 5, "A2"⟩] = none ↔
      candidatesOf
        [⟨some 9606, "UniProtKB unreviewed (TrEMBL)", some 5, "A1"⟩,
         ⟨some 10090, SWISS_PROT_TYPE, some 5, "A2"⟩] = []) ∧
    (∀ e, selectCanonical
        [⟨some 9606, "UniProtKB unreviewed (TrEMBL)", some 5, "A1"⟩,
         ⟨some 10090, SWISS_PROT_TYPE, some 5, "A2"⟩] = some e →
      e.organismTaxonId = some humanOrganismId ∧ e.entryType = SWISS_PROT_TYPE) :=
  fetch_gene_summary_selection_policy _

/-- C8: among the qualifying (human, reviewed) candidates, `fetch_gene_summary`
selects the first entry (in input order) attaining the maximal annotation
score — in particular, ties go to the first-encountered entry. -/
theorem fetch_gene_summary_tie_break (results : List Entry) (c : Entry)
    (cs : List Entry) (h : candidatesOf results = c :: cs) :
    selectCanonical results =
      (c :: cs).find? (fun e => e.score = listMaxScore c cs) := by
  rw [selectCanonical_eq_candidates results, h, listMaxScore,
    pyMaxBy_eq_find Entry.score cs c]

/-- C8 witness: two reviewed human entries share the maximal score 5; the
first one (`A1`) is selected. -/
theorem fetch_gene_summary_tie_break_witness :
    candidatesOf
        [⟨some 9606, SWISS_PROT_TYPE, some 5, "A1"⟩,
         ⟨some 9606, SWISS_PROT_TYPE, some 5, "A2"⟩] =
      [⟨some 9606, SWISS_PROT_TYPE, some 5, "A1"⟩,
       ⟨some 9606, SWISS_PROT_TYPE, some 5, "A2"⟩] ∧
    selectCanonical
        [⟨some 9606, SWISS_PROT_TYPE, some 5, "A1"⟩,
         ⟨some 9606, SWISS_PROT_TYPE, some 5, "A2"⟩] =
      some ⟨some 9606, SWISS_PROT_TYPE, some 5, "A1"⟩ := by
  constructor
  · decide
  · have h := fetch_gene_summary_tie_break
      [⟨some 9606, SWISS_PROT_TYPE, some 5, "A1"⟩,
       ⟨some 9606, SWISS_PROT_TYPE, some 5, "A2"⟩]
      ⟨some 9606, SWISS_PROT_TYPE, some 5, "A1"⟩
      [⟨some 9606, SWISS_PROT_TYPE, some 5, "A2"⟩]
      (by decide)
    rw [h]
    decide

/-! ### C2: the 404 branch of `_query_uniprot` is dead -/

/-- C2 (code bug): `status = exc.response.status_code if exc.response else
None` (uniprot.py line 124) tests the truthiness of the response, and
`Response.__bool__` is `self.ok` = `status_code < 400` — false for every
response `raise_for_status` raises on.  So `status` is always `None` in the
`HTTPError` branch, the `if status == 404: return None` branch at lines
129-130 is dead, and every HTTP error — a 404 included — raises
`UniProtServiceError`, contrary to the claim (and to the code's own intended
404 branch). -/
theorem query_uniprot_404_raises :
    (∀ (resp : Option HttpResponse) (rest : List AttemptOutcome),
      queryLoop (.httpError resp :: rest) = .serviceError) ∧
    httpErrorStatus (some ⟨404⟩) = none ∧
    queryLoop [.httpError (some ⟨404⟩)] = .serviceError ∧
    queryLoop [.httpError (some ⟨404⟩)] ≠ .notFound := by
  have hgen : ∀ (resp : Option HttpResponse) (rest : List AttemptOutcome),
      queryLoop (.httpError resp :: rest) = .serviceError := by
    intro resp rest
    rw [queryLoop]
    have hne : ¬ httpErrorStatus resp = some 404 := by
      cases resp with
      | none => rw [httpErrorStatus]; exact Option.noConfusion
      | some r =>
        rw [httpErrorStatus]
        by_cases hok : responseOk r
        · rw [if_pos hok]
          intro h
          have h404 : r.status_code = 404 := Option.some_inj.mp h
          rw [responseOk, h404] at hok
          exact absurd hok (by decide)
        · rw [if_neg hok]
          exact Option.noConfusion
    rw [if_neg hne]
  exact ⟨hgen, rfl, hgen (some ⟨404⟩) [], by rw [hgen (some ⟨404⟩) []]; decide⟩

/-! ### C4: cache degradation is permanent for get/set ops, but not delete -/

/-- C4 counterexample: after a failing `delete` (which swallows the error with
`pass` and does not clear `self._redis`), the next `get` still attempts the
primary store — the trace of "primary attempted" flags is `[true, true]`,
refuting the claim that no subsequent operation ever attempts the primary
store once any operation has raised. -/
theorem cache_degraded_after_delete_counterexample :
    (cacheRun true [(.delete, true), (.get, false)]).2 = [true, true] ∧
    ¬ (cacheRun true [(.delete, true), (.get, false)]).2 = [true, false] := by
  constructor
  · rfl
  · decide

/-- C4 (amended): once a `get`, `set`, `get_raw` or `set_raw` against the
primary store raises, the instance is permanently degraded and no subsequent
operation attempts the primary store again; a failing `delete`, however,
leaves the connection state untouched. -/
theorem cache_degraded_permanent (op : CacheOp) (hop : op ≠ .delete) :
    (∀ ops, cacheRun false ops = (false, ops.map (fun _ => false))) ∧
    (∀ rest, cacheRun true ((op, true) :: rest) =
      (false, true :: rest.map (fun _ => false))) ∧
    (∀ raises, cacheStep true .delete raises = (true, true)) := by
  have habs : ∀ ops, cacheRun false ops = (false, ops.map (fun _ => false)) := by
    intro ops
    induction ops with
    | nil => rfl
    | cons p rest ih =>
      obtain ⟨o, r⟩ := p
      rw [cacheRun]
      have hstep : cacheStep false o r = (false, false) := by
        cases o <;> cases r <;> rfl
      rw [hstep, ih]
      rfl
  refine ⟨habs, ?_, fun raises => by cases raises <;> rfl⟩
  intro rest
  rw [cacheRun]
  have hstep : cacheStep true op true = (false, true) := by
    cases op
    · rfl
    · rfl
    · exact absurd rfl hop
    · rfl
    · rfl
  rw [hstep, habs rest]

/-- C4 witness: a failing `set` degrades the cache; the two following
operations never attempt the primary store. -/
theorem cache_degraded_permanent_witness :
    CacheOp.set ≠ CacheOp.delete ∧
    cacheRun true [(.set, true), (.get, false), (.delete, false)] =
      (false, [true, false, false]) := by
  refine ⟨by decide, ?_⟩
  have h := (cache_degraded_permanent .set (by decide)).2.1
    [(.get, false), (.delete, false)]
  rw [h]
  rfl

/-- C5 counterexample: `_clean_text` is not idempotent.  On
`"(Pub{ECO:x}Med:1)"` the first pass removes only the `{ECO:x}` tag, leaving
`"(PubMed:1)"`; a second pass removes that newly formed `(PubMed:...)` tag,
yielding `""`. -/
theorem clean_text_not_idempotent :
    cleanText "(Pub\x7bECO:x\x7dMed:1)" = "(PubMed:1)" ∧
    cleanText (cleanText "(Pub\x7bECO:x\x7dMed:1)") = "" ∧
    cleanText (cleanText "(Pub\x7bECO:x\x7dMed:1)") ≠
      cleanText "(Pub\x7bECO:x\x7dMed:1)" := by
  refine ⟨by decide, by decide, by decide⟩

/-- C5 (amended): on the spec's example the claim holds: cleaning
`"Binds ATP (PubMed:12345) {ECO:0000269|PubMed:12345}"` yields
`"Binds ATP"`, and cleaning again leaves it unchanged — but idempotence does
not hold for every string. -/
theorem clean_text_example_idempotent :
    cleanText "Binds ATP (PubMed:12345) \x7bECO:0000269|PubMed:12345\x7d" =
      "Binds ATP" ∧
    cleanText "Binds ATP" = "Binds ATP" := by
  refine ⟨by decide, by decide⟩

theorem lookupAssoc_dictInsert_self {K V : Type} [DecidableEq K] (k : K) (v : V)
    (m : List (K × V)) : lookupAssoc k (dictInsert k v m) = some v := by
  induction m with
  | nil => simp [dictInsert, lookupAssoc]
  | cons p rest ih =>
    obtain ⟨k2, v2⟩ := p
    rw [dictInsert]
    by_cases h : k2 = k
    · rw [if_pos h, lookupAssoc, if_pos h]
    · rw [if_neg h, lookupAssoc, if_neg h, ih]

theorem lookupAssoc_dictInsert_ne {K V : Type} [DecidableEq K] (k k2 : K) (v : V)
    (m : List (K × V)) (h : k2 ≠ k) :
    lookupAssoc k (dictInsert k2 v m) = lookupAssoc k m := by
  induction m with
  | nil => simp [dictInsert, lookupAssoc, h]
  | cons p rest ih =>
    obtain ⟨k3, v3⟩ := p
    rw [dictInsert]
    by_cases h3 : k3 = k2
    · rw [if_pos h3, lookupAssoc, lookupAssoc]
      subst h3
      rw [if_neg h, if_neg h]
    · rw [if_neg h3, lookupAssoc, lookupAssoc]
      by_cases h4 : k3 = k
      · rw [if_pos h4, if_pos h4]
      · rw [if_neg h4, if_neg h4, ih]

theorem isSome_lookupAssoc_dictInsert {K V : Type} [DecidableEq K] (k k2 : K)
    (v : V) (m : List (K × V)) (h : (lookupAssoc k m).isSome) :
    (lookupAssoc k (dictInsert k2 v m)).isSome := by
  by_cases he : k2 = k
  · subst he
    rw [lookupAssoc_dictInsert_self]
    rfl
  · rw [lookupAssoc_dictInsert_ne k k2 v m he]
    exact h

theorem mem_mapEvidencesGo_of_mem_acc (rm : RefMap) :
    ∀ (evs : List Evidence) (seen : List String) (acc : List RefInfo) (r : RefInfo),
      r ∈ acc → r ∈ mapEvidencesGo rm seen acc evs := by
  intro evs
  induction evs with
  | nil => intro seen acc r hr; exact hr
  | cons ev rest ih =>
    intro seen acc r hr
    rw [mapEvidencesGo]
    cases hres : resolveRef rm ev with
    | none => exact ih seen acc r hr
    | some r2 =>
      dsimp only
      by_cases hc : r2.pubmed_id ≠ "" ∧ r2.pubmed_id ∉ seen
      · rw [if_pos hc]
        exact ih _ _ r (List.mem_append_left _ hr)
      · rw [if_neg hc]
        exact ih seen acc r hr

theorem mapEvidencesGo_nonempty_nodup (rm : RefMap) :
    ∀ (evs : List Evidence) (seen : List String) (acc : List RefInfo),
      (∀ r ∈ acc, r.pubmed_id ≠ "") →
      (acc.map RefInfo.pubmed_id).Nodup →
      (∀ p, p ∈ seen ↔ p ∈ acc.map RefInfo.pubmed_id) →
      (∀ r ∈ mapEvidencesGo rm seen acc evs, r.pubmed_id ≠ "") ∧
        ((mapEvidencesGo rm seen acc evs).map RefInfo.pubmed_id).Nodup := by
  intro evs
  induction evs with
  | nil => intro seen acc h1 h2 _; exact ⟨h1, h2⟩
  | cons ev rest ih =>
    intro seen acc h1 h2 h3
    rw [mapEvidencesGo]
    cases hres : resolveRef rm ev with
    | none => exact ih seen acc h1 h2 h3
    | some r2 =>
      dsimp only
      by_cases hc : r2.pubmed_id ≠ "" ∧ r2.pubmed_id ∉ seen
      · rw [if_pos hc]
        refine ih _ _ ?_ ?_ ?_
        · intro r hr
          rcases List.mem_append.mp hr with h | h
          · exact h1 r h
          · rw [List.mem_singleton.mp h]; exact hc.1
        · rw [List.map_append, List.map_singleton]
          rw [List.nodup_append]
          refine ⟨h2, List.nodup_singleton _, ?_⟩
          intro p hp
          rw [List.mem_singleton]
          intro hpe
          subst hpe
          exact hc.2 ((h3 _).mpr hp)
        · intro p
          simp only [List.map_append, List.map_singleton, List.mem_append,
            List.mem_singleton]
          exact or_congr (h3 p) Iff.rfl
      · rw [if_neg hc]
        exact ih seen acc h1 h2 h3

theorem mapEvidencesGo_placeholder (rm : RefMap) (pid : String)
    (hOP : OnlyPlaceholder rm pid) (hpidne : pid ≠ "")
    (hres : resolveRef rm (.pubmedStr (some pid)) = some (placeholderRef pid)) :
    ∀ (evs : List Evidence) (seen : List String) (acc : List RefInfo),
      Evidence.pubmedStr (some pid) ∈ evs → pid ∉ seen →
      placeholderRef pid ∈ mapEvidencesGo rm seen acc evs := by
  have hpid : (placeholderRef pid).pubmed_id = pid := rfl
  intro evs
  induction evs with
  | nil => intro seen acc hmem _; exact absurd hmem (List.not_mem_nil _)
  | cons ev rest ih =>
    intro seen acc hmem hseen
    rw [mapEvidencesGo]
    rcases List.mem_cons.mp hmem with hev | hev
    · rw [← hev, hres]
      have hc : (placeholderRef pid).pubmed_id ≠ "" ∧
          (placeholderRef pid).pubmed_id ∉ seen := by
        rw [hpid]
        exact ⟨hpidne, hseen⟩
      dsimp only
      rw [if_pos hc]
      exact mem_mapEvidencesGo_of_mem_acc rm rest _ _ _
        (List.mem_append_right _ (List.mem_singleton_self _))
    · cases hres2 : resolveRef rm ev with
      | none => exact ih seen acc hev hseen
      | some r2 =>
        dsimp only
        by_cases hc : r2.pubmed_id ≠ "" ∧ r2.pubmed_id ∉ seen
        · rw [if_pos hc]
          by_cases hid : r2.pubmed_id = pid
          · have : r2 = placeholderRef pid := hOP ev r2 hres2 hid
            exact mem_mapEvidencesGo_of_mem_acc rm rest _ _ _
              (List.mem_append_right _ (by rw [← this]; exact List.mem_singleton_self _))
          · refine ih _ _ hev ?_
            intro habs
            rcases List.mem_append.mp habs with h | h
            · exact hseen h
            · exact hid (List.mem_singleton.mp h).symm
        · rw [if_neg hc]
          exact ih seen acc hev hseen

theorem brInv_foldl :
    ∀ (refs : List RefEntry) (rm : RefMap), BRInv rm →
      BRInv (refs.foldl
        (fun rm ref =>
          let pubId := pubIdOf ref.citationCrossReferences
          let info : RefInfo :=
            ⟨pubId, ref.citationTitle.getD "No title available",
              if pubId = "" then "" else pubmedUrl pubId⟩
          let rm1 := match ref.referenceNumber with
            | some n => if n = 0 then rm
                else { rm with byNum := dictInsert n info rm.byNum }
            | none => rm
          if pubId = "" then rm1
          else { rm1 with byId := dictInsert pubId info rm1.byId }) rm) := by
  intro refs
  induction refs with
  | nil => intro rm h; exact h
  | cons ref rest ih =>
    intro rm h
    rw [List.foldl_cons]
    refine ih _ ?_
    obtain ⟨hBR1, hBR2⟩ := h
    set pubId := pubIdOf ref.citationCrossReferences with hpubId
    set info : RefInfo :=
      ⟨pubId, ref.citationTitle.getD "No title available",
        if pubId = "" then "" else pubmedUrl pubId⟩ with hinfo
    have hstep1 : ∀ rm1 : RefMap,
        (rm1.byId = rm.byId) →
        (∀ n r, lookupAssoc n rm1.byNum = some r →
          lookupAssoc n rm.byNum = some r ∨ r = info) →
        BRInv (if pubId = "" then rm1
          else { rm1 with byId := dictInsert pubId info rm1.byId }) := by
      intro rm1 hid hnum
      by_cases hp : pubId = ""
      · rw [if_pos hp]
        constructor
        · intro n r hr hne
          rcases hnum n r hr with hold | hnew
          · rw [hid]
            exact hBR1 n r hold hne
          · exact absurd (by rw [hnew, hinfo, hp]) hne
        · intro k r hr
          rw [hid] at hr
          exact hBR2 k r hr
      · rw [if_neg hp]
        constructor
        · intro n r hr hne
          simp only at hr
          rcases hnum n r hr with hold | hnew
          · have := hBR1 n r hold hne
            rw [hid] at *
            exact isSome_lookupAssoc_dictInsert _ _ _ _ this
          · rw [hnew, hinfo]
            simp only
            rw [lookupAssoc_dictInsert_self]
            rfl
        · intro k r hr
          simp only at hr
          by_cases hk : k = pubId
          · subst hk
            rw [lookupAssoc_dictInsert_self] at hr
            rw [← Option.some_inj.mp hr, hinfo]
          · rw [lookupAssoc_dictInsert_ne _ _ _ _ (fun h => hk h.symm), hid] at hr
            exact hBR2 k r hr
    cases hrn : ref.referenceNumber with
    | none => exact hstep1 rm rfl (fun n r hr => Or.inl hr)
    | some n0 =>
      by_cases hz : n0 = 0
      · simp only [hrn, hz, if_pos rfl]
        exact hstep1 rm rfl (fun n r hr => Or.inl hr)
      · simp only [hrn, if_neg hz]
        refine hstep1 _ rfl ?_
        intro n r hr
        simp only at hr
        by_cases hn : n = n0
        · subst hn
          rw [lookupAssoc_dictInsert_self] at hr
          exact Or.inr (Option.some_inj.mp hr).symm
        · rw [lookupAssoc_dictInsert_ne _ _ _ _ (fun h => hn h.symm)] at hr
          exact Or.inl hr

theorem brInv_build (refs : List RefEntry) : BRInv (buildReferenceMap refs) := by
  rw [buildReferenceMap]
  refine brInv_foldl refs ⟨[], []⟩ ?_
  constructor
  · intro n r hr
    exact absurd hr (by rw [lookupAssoc]; exact Option.noConfusion)
  · intro k r hr
    exact absurd hr (by rw [lookupAssoc]; exact Option.noConfusion)

theorem onlyPlaceholder_of_absent (refs : List RefEntry) (pid : String)
    (hpid : pid ≠ "")
    (hnone : lookupAssoc pid (buildReferenceMap refs).byId = none) :
    OnlyPlaceholder (buildReferenceMap refs) pid := by
  obtain ⟨hBR1, hBR2⟩ := brInv_build refs
  intro ev r hres hid
  cases ev with
  | structured nOpt =>
    cases nOpt with
    | none =>
      rw [resolveRef, Option.none_bind] at hres
      exact absurd hres Option.noConfusion
    | some n =>
      rw [resolveRef, Option.some_bind] at hres
      have hne : r.pubmed_id ≠ "" := by rw [hid]; exact hpid
      have := hBR1 n r hres hne
      rw [hid, hnone] at this
      exact absurd this (by simp)
  | pubmedStr idOpt =>
    rw [resolveRef.eq_def] at hres
    dsimp only at hres
    cases hb : idOpt.bind (fun k => lookupAssoc k (buildReferenceMap refs).byId) with
    | some r2 =>
      rw [hb] at hres
      dsimp only at hres
      have hr2 : r = r2 := (Option.some_inj.mp hres).symm
      cases idOpt with
      | none =>
        rw [Option.none_bind] at hb
        exact absurd hb Option.noConfusion
      | some k =>
        rw [Option.some_bind] at hb
        have hk := hBR2 k r2 hb
        rw [← hr2, hid] at hk
        rw [← hk] at hb
        rw [hnone] at hb
        exact absurd hb Option.noConfusion
    | none =>
      rw [hb] at hres
      dsimp only at hres
      cases idOpt with
      | none => exact absurd hres (by exact Option.noConfusion)
      | some pid2 =>
        dsimp only at hres
        by_cases hp2 : pid2 = ""
        · rw [if_pos hp2] at hres
          exact absurd hres Option.noConfusion
        · rw [if_neg hp2] at hres
          have : r = placeholderRef pid2 := (Option.some_inj.mp hres).symm
          rw [this, placeholderRef] at hid
          simp only at hid
          rw [this, hid]
  | otherEv => exact absurd hres (by rw [resolveRef]; exact Option.noConfusion)

theorem resolveRef_placeholder (rm : RefMap) (pid : String) (hpid : pid ≠ "")
    (habs : lookupAssoc pid rm.byId = none) :
    resolveRef rm (.pubmedStr (some pid)) = some (placeholderRef pid) := by
  rw [resolveRef.eq_def]
  dsimp only
  rw [Option.some_bind, habs]
  dsimp only
  rw [if_neg hpid]

/-- C10: `_map_evidences` returns citations deduplicated by PubMed id, every
returned citation has a non-empty id, and an evidence whose source is the
bare string `"PubMed"` with a non-empty id absent from the reference map is
not dropped: the output contains the fabricated placeholder citation, whose
title is `"PubMed Record <id>"` and whose URL is derived from the id. -/
theorem map_evidences_dedup_and_placeholder (evs : List Evidence) (rm : RefMap)
    (refs : List RefEntry) (pid : String) (hpid : pid ≠ "")
    (habs : lookupAssoc pid (buildReferenceMap refs).byId = none)
    (hmem : Evidence.pubmedStr (some pid) ∈ evs) :
    (∀ r ∈ mapEvidences evs rm, r.pubmed_id ≠ "") ∧
    ((mapEvidences evs rm).map RefInfo.pubmed_id).Nodup ∧
    placeholderRef pid ∈ mapEvidences evs (buildReferenceMap refs) ∧
    placeholderRef pid =
      ⟨pid, "PubMed Record " ++ pid, "https://pubmed.ncbi.nlm.nih.gov/" ++ pid ++ "/"⟩ := by
  have hmain := mapEvidencesGo_nonempty_nodup rm evs [] []
    (fun r hr => absurd hr (List.not_mem_nil _))
    List.nodup_nil
    (fun p => Iff.rfl)
  refine ⟨hmain.1, hmain.2, ?_, rfl⟩
  exact mapEvidencesGo_placeholder (buildReferenceMap refs) pid
    (onlyPlaceholder_of_absent refs pid hpid habs) hpid
    (resolveRef_placeholder _ pid hpid habs)
    evs [] [] hmem (List.not_mem_nil _)

/-- C10 witness: an empty reference list and a single bare-`"PubMed"`
evidence with id `"123"`: the output contains the fabricated placeholder. -/
theorem map_evidences_dedup_and_placeholder_witness :
    ("123" : String) ≠ "" ∧
    lookupAssoc "123" (buildReferenceMap []).byId = none ∧
    Evidence.pubmedStr (some "123") ∈ [Evidence.pubmedStr (some "123")] ∧
    placeholderRef "123" ∈
      mapEvidences [Evidence.pubmedStr (some "123")] (buildReferenceMap []) :=
  ⟨by decide, rfl, List.mem_singleton_self _,
    (map_evidences_dedup_and_placeholder [Evidence.pubmedStr (some "123")]
      (buildReferenceMap []) [] "123" (by decide) rfl
      (List.mem_singleton_self _)).2.2.1⟩

theorem find?_pre_none {α : Type} (p : α → Bool) :
    ∀ (pre : List α) (c0 : α) (post : List α),
      (∀ c ∈ pre, ¬ p c) → p c0 → (pre ++ c0 :: post).find? p = some c0 := by
  intro pre
  induction pre with
  | nil => intro c0 post _ h0; exact List.find?_cons_of_pos _ h0
  | cons a pre ih =>
    intro c0 post hpre h0
    rw [List.cons_append, List.find?_cons_of_neg _ (hpre a (List.mem_cons_self _ _))]
    exact ih c0 post (fun c hc => hpre c (List.mem_cons_of_mem _ hc)) h0

/-- C6 counterexample: with two PTM comments the code's description uses only
the first (`break` at uniprot.py line 346), not the concatenation of all PTM
comment texts. -/
theorem extract_ptm_first_comment_only :
    ptmDescription [⟨"PTM", ["A"]⟩, ⟨"PTM", ["B"]⟩] = "A" ∧
    specPtmDescriptionAllComments [⟨"PTM", ["A"]⟩, ⟨"PTM", ["B"]⟩] = "A B" ∧
    ptmDescription [⟨"PTM", ["A"]⟩, ⟨"PTM", ["B"]⟩] ≠
      specPtmDescriptionAllComments [⟨"PTM", ["A"]⟩, ⟨"PTM", ["B"]⟩] := by
  refine ⟨by decide, by decide, by decide⟩

/-- C6 (amended): the PTM description is the cleaned, space-joined text of
the FIRST PTM comment only; there is one site per `"Modified residue"`
feature with position from the feature's start location and residue the text
before the first semicolon of the description; and both the PTM-site list and
the variant list are stably sorted by position ascending (sortedness plus
per-position filter preservation, which together characterise the unique
stable sort). -/
theorem ptm_sites_and_variants (rm : RefMap) (pre post : List CommentC)
    (c0 : CommentC) (features : List Feature)
    (hpre : ∀ c ∈ pre, c.commentType ≠ "PTM") (hc0 : c0.commentType = "PTM") :
    ptmDescription (pre ++ c0 :: post) =
      " ".intercalate ((c0.texts.filter (fun t => t ≠ "")).map cleanText) ∧
    (extractPtmSites rm features).Perm
      ((features.filter (fun f => f.ftype == "Modified residue")).map (mkPtmSite rm)) ∧
    (extractPtmSites rm features).Sorted (byKeyAsc (fun s => s.position)) ∧
    (∀ p : Int, (extractPtmSites rm features).filter (fun s => s.position = p) =
      ((features.filter (fun f => f.ftype == "Modified residue")).map
        (mkPtmSite rm)).filter (fun s => s.position = p)) ∧
    (extractVariants rm features).Perm
      ((features.filter (fun f => f.ftype == "Natural variant")).map (mkVariant rm)) ∧
    (extractVariants rm features).Sorted (byKeyAsc (fun v => v.position)) ∧
    (∀ p : Int, (extractVariants rm features).filter (fun v => v.position = p) =
      ((features.filter (fun f => f.ftype == "Natural variant")).map
        (mkVariant rm)).filter (fun v => v.position = p)) := by
  refine ⟨?_, sortByKey_perm _ _, sortByKey_sorted _ _,
    fun p => filter_sortByKey _ p _, sortByKey_perm _ _, sortByKey_sorted _ _,
    fun p => filter_sortByKey _ p _⟩
  rw [ptmDescription, find?_pre_none _ pre c0 post
    (fun c hc => by simpa using hpre c hc) (by simpa using hc0)]

/-- C6 witness: one PTM comment with an empty second text; two out-of-order
modified-residue features get sorted by position. -/
theorem ptm_sites_and_variants_witness :
    (∀ c ∈ ([] : List CommentC), c.commentType ≠ "PTM") ∧
    (⟨"PTM", ["A", ""]⟩ : CommentC).commentType = "PTM" ∧
    ptmDescription [⟨"PTM", ["A", ""]⟩] = "A" ∧
    (extractPtmSites ⟨[], []⟩
      [⟨"Modified residue", "Phosphoserine; by CK2", 10, [], "", none⟩,
       ⟨"Modified residue", "Phosphothreonine", 5, [], "", none⟩]).Sorted
      (byKeyAsc (fun s => s.position)) := by
  have h := ptm_sites_and_variants ⟨[], []⟩ [] [] ⟨"PTM", ["A", ""]⟩
    [⟨"Modified residue", "Phosphoserine; by CK2", 10, [], "", none⟩,
     ⟨"Modified residue", "Phosphothreonine", 5, [], "", none⟩]
    (fun c hc => absurd hc (List.not_mem_nil c)) rfl
  exact ⟨fun c hc => absurd hc (List.not_mem_nil c), rfl,
    h.1.trans (by decide), h.2.2.1⟩

/-- C9: the structure list is ordered by resolution ascending, the sort value
being the numeric parse of the leading space-delimited token of the
resolution string; absent, `"N/A"` or unparsable resolutions sort last
(`⊤` = `float('inf')`); the sort is stable (per-key filter preservation) and
a permutation of the extracted entries; in particular `"2.5 A"` sorts before
`"3.1 A"`, which sorts before `"N/A"`. -/
theorem structure_sort_by_resolution (xrefs : List Xref) :
    extractStructure xrefs =
      (sortByKey (fun p => p.1) (pdbPairs xrefs)).map (fun p => p.2) ∧
    (sortByKey (fun p : WithTop ℚ × PdbStructure => p.1) (pdbPairs xrefs)).Sorted
      (byKeyAsc (fun p => p.1)) ∧
    (sortByKey (fun p : WithTop ℚ × PdbStructure => p.1) (pdbPairs xrefs)).Perm
      (pdbPairs xrefs) ∧
    (∀ q : WithTop ℚ,
      (sortByKey (fun p : WithTop ℚ × PdbStructure => p.1) (pdbPairs xrefs)).filter
          (fun p => p.1 = q) =
        (pdbPairs xrefs).filter (fun p => p.1 = q)) ∧
    resSortVal "2.5 A" < resSortVal "3.1 A" ∧
    resSortVal "3.1 A" < resSortVal "N/A" ∧
    extractStructure
        [⟨"PDB", "B31", [("Method", "X-ray"), ("Resolution", "3.1 A")]⟩,
         ⟨"PDB", "CNA", [("Method", "X-ray"), ("Resolution", "N/A")]⟩,
         ⟨"PDB", "A25", [("Method", "X-ray"), ("Resolution", "2.5 A")]⟩] =
      [⟨"A25", "X-ray", "2.5 A", "https://www.rcsb.org/structure/A25"⟩,
       ⟨"B31", "X-ray", "3.1 A", "https://www.rcsb.org/structure/B31"⟩,
       ⟨"CNA", "X-ray", "N/A", "https://www.rcsb.org/structure/CNA"⟩] :=
  ⟨rfl, sortByKey_sorted _ _, sortByKey_perm _ _,
    fun q => filter_sortByKey _ q _, by decide, by decide, by decide⟩

/-! Lemmas about `updateAssoc`, `buildGroups` and per-group aggregation. -/

theorem lookupAssoc_updateAssoc_self {K V : Type} [DecidableEq K]
    (k : K) (f : V → V) (dflt : V) (l : List (K × V)) :
    lookupAssoc k (updateAssoc k f dflt l) =
      some (match lookupAssoc k l with
        | none => dflt
        | some v => f v) := by
  induction l with
  | nil => simp [updateAssoc, lookupAssoc]
  | cons p rest ih =>
    obtain ⟨k2, v⟩ := p
    rw [updateAssoc]
    by_cases h : k2 = k
    · rw [if_pos h, lookupAssoc, if_pos h, lookupAssoc, if_pos h]
    · rw [if_neg h, lookupAssoc, if_neg h, lookupAssoc, if_neg h, ih]

theorem lookupAssoc_updateAssoc_ne {K V : Type} [DecidableEq K]
    (k k2 : K) (f : V → V) (dflt : V) (l : List (K × V)) (h : k2 ≠ k) :
    lookupAssoc k (updateAssoc k2 f dflt l) = lookupAssoc k l := by
  induction l with
  | nil => simp [updateAssoc, lookupAssoc, h]
  | cons p rest ih =>
    obtain ⟨k3, v⟩ := p
    rw [updateAssoc]
    by_cases h3 : k3 = k2
    · rw [if_pos h3, lookupAssoc, lookupAssoc]
      subst h3
      rw [if_neg h, if_neg h]
    · rw [if_neg h3, lookupAssoc, lookupAssoc]
      by_cases h4 : k3 = k
      · rw [if_pos h4, if_pos h4]
      · rw [if_neg h4, if_neg h4, ih]

theorem buildGroups_concat (rows : List Row) (r : Row) :
    buildGroups (rows ++ [r]) = stepRow (buildGroups rows) r := by
  rw [buildGroups, buildGroups, List.foldl_append, List.foldl_cons, List.foldl_nil]

theorem aggregateRows_concat (l : List Row) (row : Row) :
    aggregateRows (l ++ [row]) =
      some (match aggregateRows l with
        | none => addPmid row (initGroup row)
        | some g => updGroup row g) := by
  cases l with
  | nil => rfl
  | cons r rs =>
    rw [List.cons_append, aggregateRows, aggregateRows, List.foldl_append,
      List.foldl_cons, List.foldl_nil]

theorem groupRows_concat (k : String × String × String × String)
    (rows : List Row) (r : Row) :
    groupRows k (rows ++ [r]) =
      groupRows k rows ++ (if keyOf r = k then [r] else []) := by
  rw [groupRows, groupRows, List.filter_append]
  by_cases h : keyOf r = k <;> simp [h, groupRows]

theorem lookup_buildGroups (k : String × String × String × String)
    (rows : List Row) :
    lookupAssoc k (buildGroups rows) = aggregateRows (groupRows k rows) := by
  induction rows using List.reverseRecOn with
  | nil => rfl
  | append_singleton rows r ih =>
    rw [buildGroups_concat, stepRow, groupRows_concat]
    by_cases h : keyOf r = k
    · rw [h, if_pos rfl, lookupAssoc_updateAssoc_self, ih, aggregateRows_concat]
      cases aggregateRows (groupRows k rows) <;> rfl
    · rw [if_neg h, List.append_nil, lookupAssoc_updateAssoc_ne _ _ _ _ _ h, ih]

theorem descOf_addPmid (r : Row) (g : Group) : descOf (addPmid r g) = descOf g := by
  rw [addPmid]
  dsimp only
  split_ifs <;> rfl

theorem descOf_updGroup (r : Row) (g : Group) : descOf (updGroup r g) = descOf g := by
  rw [updGroup, descOf_addPmid]
  rfl

theorem descOf_fold (rs : List Row) :
    ∀ g, descOf (rs.foldl (fun g row => updGroup row g) g) = descOf g := by
  induction rs with
  | nil => intro g; rfl
  | cons row rs ih =>
    intro g
    rw [List.foldl_cons, ih, descOf_updGroup]

theorem score_addPmid (r : Row) (g : Group) : (addPmid r g).score = g.score := by
  rw [addPmid]
  dsimp only
  split_ifs <;> rfl

theorem score_updGroup (r : Row) (g : Group) :
    (updGroup r g).score = max g.score (safeFloat r.score) := by
  rw [updGroup, score_addPmid]

theorem score_fold (rs : List Row) :
    ∀ g, (rs.foldl (fun g row => updGroup row g) g).score =
      (rs.map (fun x => safeFloat x.score)).foldl max g.score := by
  induction rs with
  | nil => intro g; rfl
  | cons row rs ih =>
    intro g
    rw [List.foldl_cons, ih, List.map_cons, List.foldl_cons, score_updGroup]

theorem cit_addPmid (r : Row) (g : Group) :
    ((addPmid r g).pmids, (addPmid r g).sentences) =
      collectCit (g.pmids, g.sentences) r := by
  rw [addPmid, collectCit]
  dsimp only
  split_ifs <;> rfl

theorem cit_updGroup (r : Row) (g : Group) :
    ((updGroup r g).pmids, (updGroup r g).sentences) =
      collectCit (g.pmids, g.sentences) r := by
  rw [updGroup]
  exact cit_addPmid r _

theorem cit_fold (rs : List Row) :
    ∀ g, ((rs.foldl (fun g row => updGroup row g) g).pmids,
        (rs.foldl (fun g row => updGroup row g) g).sentences) =
      rs.foldl collectCit (g.pmids, g.sentences) := by
  induction rs with
  | nil => intro g; rfl
  | cons row rs ih =>
    intro g
    rw [List.foldl_cons, List.foldl_cons, ih, cit_updGroup]

theorem collect_fold_inv (rs : List Row) :
    ∀ ps : List String × List String, ps.1.Nodup → (∀ p ∈ ps.1, p ≠ "") →
      (rs.foldl collectCit ps).1.Nodup ∧
        (∀ p ∈ (rs.foldl collectCit ps).1, p ≠ "") := by
  induction rs with
  | nil => intro ps h1 h2; exact ⟨h1, h2⟩
  | cons row rs ih =>
    intro ps h1 h2
    rw [List.foldl_cons]
    refine ih _ ?_ ?_
    all_goals
      rw [collectCit]
      dsimp only
      split_ifs with hc hs
    · rw [List.nodup_append]
      exact ⟨h1, List.nodup_singleton _, fun p hp hp2 =>
        hc.2 ((List.mem_singleton.mp hp2) ▸ hp)⟩
    · rw [List.nodup_append]
      exact ⟨h1, List.nodup_singleton _, fun p hp hp2 =>
        hc.2 ((List.mem_singleton.mp hp2) ▸ hp)⟩
    · exact h1
    · intro p hp
      rcases List.mem_append.mp hp with h | h
      · exact h2 p h
      · rw [List.mem_singleton.mp h]; exact hc.1
    · intro p hp
      rcases List.mem_append.mp hp with h | h
      · exact h2 p h
      · rw [List.mem_singleton.mp h]; exact hc.1
    · exact h2

theorem keys_updateAssoc {K V : Type} [DecidableEq K] (k : K) (f : V → V)
    (dflt : V) : ∀ l : List (K × V),
      (updateAssoc k f dflt l).map Prod.fst =
        if k ∈ l.map Prod.fst then l.map Prod.fst
        else l.map Prod.fst ++ [k] := by
  intro l
  induction l with
  | nil => simp [updateAssoc]
  | cons p rest ih =>
    obtain ⟨k2, v⟩ := p
    rw [updateAssoc]
    by_cases h : k2 = k
    · rw [if_pos h, List.map_cons, List.map_cons]
      subst h
      simp
    · rw [if_neg h, List.map_cons, List.map_cons, ih]
      have hne : ¬ k = k2 := fun he => h he.symm
      by_cases hmem : k ∈ rest.map Prod.fst
      · rw [if_pos hmem, if_pos (List.mem_cons_of_mem _ hmem)]
      · rw [if_neg hmem, if_neg (by
          intro hm
          rcases List.mem_cons.mp hm with he | hm2
          · exact hne he
          · exact hmem hm2)]
        rfl

theorem keys_nodup_stepRow (l : List ((String × String × String × String) × Group))
    (r : Row) (h : (l.map Prod.fst).Nodup) :
    ((stepRow l r).map Prod.fst).Nodup := by
  rw [stepRow, keys_updateAssoc]
  by_cases hmem : keyOf r ∈ l.map Prod.fst
  · rw [if_pos hmem]; exact h
  · rw [if_neg hmem, List.nodup_append]
    exact ⟨h, List.nodup_singleton _, fun p hp hp2 =>
      hmem ((List.mem_singleton.mp hp2) ▸ hp)⟩

theorem buildGroups_keys_nodup (rows : List Row) :
    ((buildGroups rows).map Prod.fst).Nodup := by
  rw [buildGroups]
  have h : ∀ (rs : List Row) (l : List ((String × String × String × String) × Group)),
      (l.map Prod.fst).Nodup → ((rs.foldl stepRow l).map Prod.fst).Nodup := by
    intro rs
    induction rs with
    | nil => intro l hl; exact hl
    | cons row rs ih =>
      intro l hl
      rw [List.foldl_cons]
      exact ih _ (keys_nodup_stepRow l row hl)
  exact h rows [] List.nodup_nil

theorem lookup_of_mem_nodup {K V : Type} [DecidableEq K] :
    ∀ (l : List (K × V)), (l.map Prod.fst).Nodup →
      ∀ k v, (k, v) ∈ l → lookupAssoc k l = some v := by
  intro l
  induction l with
  | nil => intro _ k v hm; exact absurd hm (List.not_mem_nil _)
  | cons p rest ih =>
    obtain ⟨k2, v2⟩ := p
    intro hnd k v hm
    rw [List.map_cons, List.nodup_cons] at hnd
    rcases List.mem_cons.mp hm with he | hm2
    · obtain ⟨hk, hv⟩ := Prod.mk.injEq .. ▸ he
      rw [lookupAssoc, if_pos (by rw [hk])]
      rw [hv]
    · rw [lookupAssoc]
      by_cases hk : k2 = k
      · exfalso
        subst hk
        exact hnd.1 (List.mem_map.mpr ⟨(k2, v), hm2, rfl⟩)
      · rw [if_neg hk]
        exact ih hnd.2 k v hm2

/-- C3: `_build_interactions` groups rows by (entity_a, entity_b, effect,
mechanism); each group aggregates exactly the rows with its key, in order:
the descriptive fields are those of the group's first row and are never
overwritten, the score is the maximum parsed score over the group's rows
(unparsable = 0.0), pmids/sentences follow the first-seen-identifier
accumulation; emission rounds the score to three decimals, sorts the unique
non-empty pmids lexicographically and caps sentences at three; the output is
ordered by score descending, stably on ties (sortedness plus per-score
filter preservation). -/
theorem build_interactions_aggregation (rows : List Row) :
    (∀ k, lookupAssoc k (buildGroups rows) = aggregateRows (groupRows k rows)) ∧
    (buildInteractions rows).Perm
      ((buildGroups rows).map (fun p => emitGroup p.2)) ∧
    (∀ k g, lookupAssoc k (buildGroups rows) = some g →
      ∀ r rs, groupRows k rows = r :: rs →
        descOf g = descOf (initGroup r) ∧
        (g.score ∈ (r :: rs).map (fun x => safeFloat x.score) ∧
          ∀ s ∈ (r :: rs).map (fun x => safeFloat x.score), s ≤ g.score) ∧
        (g.pmids, g.sentences) = (r :: rs).foldl collectCit ([], []) ∧
        g.pmids.Nodup ∧ (∀ p ∈ g.pmids, p ≠ "")) ∧
    (∀ i ∈ buildInteractions rows, ∃ kg ∈ buildGroups rows,
      i = emitGroup kg.2 ∧ i.score = round3 kg.2.score ∧
      i.pmids.Perm kg.2.pmids ∧
      i.pmids.Sorted (fun a b : String => a.data ≤ b.data) ∧
      i.sentences = kg.2.sentences.take 3 ∧ i.sentences.length ≤ 3) ∧
    (buildInteractions rows).Sorted (fun a b => b.score ≤ a.score) ∧
    (∀ q : ℚ, (buildInteractions rows).filter (fun i => i.score = q) =
      ((buildGroups rows).map (fun p => emitGroup p.2)).filter
        (fun i => i.score = q)) := by
  refine ⟨fun k => lookup_buildGroups k rows, sortByKey_perm _ _, ?_, ?_, ?_, ?_⟩
  · intro k g hg r rs hrows
    rw [lookup_buildGroups k rows, hrows, aggregateRows] at hg
    have hgG := Option.some_inj.mp hg
    subst hgG
    constructor
    · rw [descOf_fold, descOf_addPmid]
    have hpair := cit_fold rs (addPmid r (initGroup r))
    have hbase : ((addPmid r (initGroup r)).pmids,
        (addPmid r (initGroup r)).sentences) = collectCit ([], []) r :=
      cit_addPmid r (initGroup r)
    rw [hbase] at hpair
    have hcollect : (rs.foldl (fun g row => updGroup row g)
          (addPmid r (initGroup r))).pmids =
        ((r :: rs).foldl collectCit ([], [])).1 := by
      rw [List.foldl_cons]
      rw [← hpair]
    have hscore := score_fold rs (addPmid r (initGroup r))
    rw [score_addPmid] at hscore
    have hinit : (initGroup r).score = safeFloat r.score := rfl
    rw [hinit] at hscore
    refine ⟨⟨?_, ?_⟩, ?_, ?_, ?_⟩
    · rw [hscore, List.map_cons]
      rcases foldl_max_mem (rs.map (fun x => safeFloat x.score)) (safeFloat r.score)
        with h | h
      · rw [h]; exact List.mem_cons_self _ _
      · exact List.mem_cons_of_mem _ h
    · intro s hs
      rw [List.map_cons] at hs
      obtain ⟨hle, hub⟩ := le_foldl_max (rs.map (fun x => safeFloat x.score))
        (safeFloat r.score)
      rw [hscore]
      rcases List.mem_cons.mp hs with h | h
      · rw [h]; exact hle
      · exact hub s h
    · rw [List.foldl_cons, ← hpair]
    · have := (collect_fold_inv (r :: rs) ([], []) List.nodup_nil
        (fun p hp => absurd hp (List.not_mem_nil _))).1
      rw [hcollect]
      exact this
    · have := (collect_fold_inv (r :: rs) ([], []) List.nodup_nil
        (fun p hp => absurd hp (List.not_mem_nil _))).2
      rw [hcollect]
      exact this
  · intro i hi
    have hi2 : i ∈ (buildGroups rows).map (fun p => emitGroup p.2) :=
      (sortByKey_perm (fun i : Interaction => -i.score) _).mem_iff.mp hi
    obtain ⟨p, hp, hpe⟩ := List.mem_map.mp hi2
    refine ⟨p, hp, hpe.symm, ?_, ?_, ?_, ?_, ?_⟩
    · rw [← hpe]
      rfl
    · rw [← hpe]
      exact sortByKey_perm _ _
    · rw [← hpe]
      exact sortByKey_sorted (fun p : String => p.data) _
    · rw [← hpe]
      rfl
    · rw [← hpe]
      show (p.2.sentences.take 3).length ≤ 3
      rw [List.length_take]
      exact min_le_left _ _
  · exact List.Pairwise.imp (fun h => neg_le_neg_iff.mp h)
      (sortByKey_sorted (fun i : Interaction => -i.score) _)
  · intro q
    have h := filter_sortByKey (fun i : Interaction => -i.score) (-q)
      ((buildGroups rows).map (fun p => emitGroup p.2))
    calc (buildInteractions rows).filter (fun i => i.score = q)
        = (buildInteractions rows).filter (fun i => -i.score = -q) :=
          List.filter_congr (fun x _ => by simp [neg_inj])
      _ = ((buildGroups rows).map (fun p => emitGroup p.2)).filter
            (fun i => -i.score = -q) := h
      _ = ((buildGroups rows).map (fun p => emitGroup p.2)).filter
            (fun i => i.score = q) :=
          (List.filter_congr (fun x _ => by simp [neg_inj])).symm

/-- C3 witness: two rows sharing the key collapse into one group carrying the
maximum score 0.95 (exactly `0.950` after rounding), both pmids, and the
first row's descriptive fields. -/
theorem build_interactions_aggregation_witness :
    lookupAssoc ("TP53", "MDM2", "down-regulates", "ubiquitination")
        (buildGroups [rW1, rW2]) = some gW ∧
    groupRows ("TP53", "MDM2", "down-regulates", "ubiquitination") [rW1, rW2] =
      [rW1, rW2] ∧
    descOf gW = descOf (initGroup rW1) ∧
    gW.score ∈ [rW1, rW2].map (fun x => safeFloat x.score) ∧
    buildInteractions [rW1, rW2] = [emitGroup gW] ∧
    (emitGroup gW).score = mkRat 19 20 ∧
    (emitGroup gW).pmids = ["11234", "11235"] := by
  have h1 : lookupAssoc ("TP53", "MDM2", "down-regulates", "ubiquitination")
      (buildGroups [rW1, rW2]) = some gW := by decide
  have h2 : groupRows ("TP53", "MDM2", "down-regulates", "ubiquitination")
      [rW1, rW2] = [rW1, rW2] := by decide
  have h3 := (build_interactions_aggregation [rW1, rW2]).2.2.1
    ("TP53", "MDM2", "down-regulates", "ubiquitination") gW h1 rW1 [rW2] h2
  exact ⟨h1, h2, h3.1, h3.2.1.1, by decide, by decide, by decide⟩

/-! ### C7: TSV line handling and `total_relations` -/

set_option maxRecDepth 8000 in
/-- C7: a feed line with fewer than 22 tab-separated tokens is silently
discarded; a line with 22 to 28 tokens is kept, right-padded with empty
strings to the 28-column schema; and `total_relations` is the number of kept
rows before grouping — on a body of two well-formed rows sharing a key plus
one malformed line, `total_relations` is 2 while only one aggregated group
is emitted. -/
theorem tsv_parse_and_total_relations :
    (∀ line : String, (strSplitOn line "\t").length < 22 → parseLine line = none) ∧
    (∀ line : String, 22 ≤ (strSplitOn line "\t").length →
      (strSplitOn line "\t").length ≤ 28 →
      parseLine line = some ((strSplitOn line "\t") ++
        List.replicate (28 - (strSplitOn line "\t").length) "") ∧
      ∀ cols, parseLine line = some cols → cols.length = 28) ∧
    (∀ (rows : List Row) (acc : String),
      (structureResponse rows acc).total_relations = rows.length) ∧
    (structureResponse ((fetchTsvRows
        ("A\tp\tP1\tdb\tB\tp\tP2\tdb\tup\tbind\t\t\t9606\t\t\t\t\t\t\t\t\t1\tYES\t\t\tsent a\tS1\t0.5\n"
          ++ "bad\tline\n"
          ++ "A\tp\tP1\tdb\tB\tp\tP2\tdb\tup\tbind\t\t\t9606\t\t\t\t\t\t\t\t\t2\tYES\t\t\tsent b\tS1\t0.5")).map
        rowOfCols) "P1").total_relations = 2 ∧
    (structureResponse ((fetchTsvRows
        ("A\tp\tP1\tdb\tB\tp\tP2\tdb\tup\tbind\t\t\t9606\t\t\t\t\t\t\t\t\t1\tYES\t\t\tsent a\tS1\t0.5\n"
          ++ "bad\tline\n"
          ++ "A\tp\tP1\tdb\tB\tp\tP2\tdb\tup\tbind\t\t\t9606\t\t\t\t\t\t\t\t\t2\tYES\t\t\tsent b\tS1\t0.5")).map
        rowOfCols) "P1").interactions.length = 1 := by
  refine ⟨?_, ?_, fun rows acc => rfl, by decide, by decide⟩
  · intro line h
    rw [parseLine]
    simp only [if_pos h]
  · intro line h22 h28
    have hlen : ((strSplitOn line "\t") ++
        List.replicate (28 - (strSplitOn line "\t").length) "").length = 28 := by
      rw [List.length_append, List.length_replicate]
      omega
    have hpad : parseLine line = some ((strSplitOn line "\t") ++
        List.replicate (28 - (strSplitOn line "\t").length) "") := by
      rw [parseLine]
      simp only [if_neg (by omega : ¬ (strSplitOn line "\t").length < 22)]
      rw [show TSV_COLUMNS_LENGTH = 28 from rfl]
      rw [List.take_of_length_le (le_of_eq hlen)]
    refine ⟨hpad, ?_⟩
    intro cols hcols
    rw [hpad] at hcols
    rw [← Option.some_inj.mp hcols, hlen]

/-- C7 witness: a 2-token line is discarded; a 22-token line is kept and
padded to 28 columns. -/
theorem tsv_parse_and_total_relations_witness :
    ((strSplitOn "a\tb" "\t").length < 22 ∧ parseLine "a\tb" = none) ∧
    (22 ≤ (strSplitOn lineW "\t").length ∧ (strSplitOn lineW "\t").length ≤ 28 ∧
      parseLine lineW = some ((strSplitOn lineW "\t") ++
        List.replicate (28 - (strSplitOn lineW "\t").length) "") ∧
      ∀ cols, parseLine lineW = some cols → cols.length = 28) := by
  obtain ⟨hshort, hpad, _, _⟩ := tsv_parse_and_total_relations
  have h1 : (strSplitOn "a\tb" "\t").length < 22 := by decide
  have h221 : 22 ≤ (strSplitOn lineW "\t").length := by decide
  have h222 : (strSplitOn lineW "\t").length ≤ 28 := by decide
  exact ⟨⟨h1, hshort "a\tb" h1⟩,
    h221, h222, (hpad lineW h221 h222).1, (hpad lineW h221 h222).2⟩

end GenePGE

